import Mathlib

/-!
Verification of the melatonin-ext test engine (jefflinse/melatonin-ext).

The development shallowly embeds the core of the repository:

* the response-payload decode fallback chain `parseResponsePayload`
  (src/aws/lambda/lambda.go, lines 304-329; the near-identical duplicate
  lives in src/aws/lambda.go lines 298-323),
* the request-payload encoder with its cache `requestPayloadBytes`
  (src/aws/lambda/lambda.go lines 243-271),
* the expectation validator `validateExpectations`
  (src/aws/lambda/lambda.go lines 336-372),
* the local-process test-case `Execute` (src/exec/exec.go lines 58-82).

Byte payloads are modelled as `List Char` (all payloads reasoned about are
ASCII text).  Go's `encoding/json` is an external collaborator of the repo;
it is modelled here by an executable renderer (`renderJson`, mirroring
`json.Marshal` of a Go value: compact output, sorted map keys, HTML-escaping
on) and an executable parser (`parseValue`, mirroring the JSON grammar as
`encoding/json` accepts it, restricted to integer numerics; floats, surrogate
pairs and duplicate object keys are outside the model and every theorem below
stays inside the modelled fragment).  Go's `panic` is modelled by `Option`:
a function returns `none` where the Go code would panic.
-/

namespace MEx

/-- The character `{` (written via its code so that brace characters never
appear inside string or character literals). -/
def lbraceC : Char := Char.ofNat 123

/-- The character `}`. -/
def rbraceC : Char := Char.ofNat 125

/-- The double-quote character. -/
def quoteC : Char := '\"'

/-- JSON whitespace, exactly the set accepted by Go `encoding/json`:
space, tab, newline, carriage return. -/
def isWsC (c : Char) : Bool :=
  c = ' ' || c = '\t' || c = '\n' || c = '\r'

/-- ASCII decimal digit. -/
def isDigitC (c : Char) : Bool :=
  48 ≤ c.toNat && c.toNat ≤ 57

/-- Value of an ASCII decimal digit. -/
def digitVal (c : Char) : Nat := c.toNat - 48

/-- The ASCII character of a decimal digit. -/
def digitChar (d : Nat) : Char := Char.ofNat (48 + d)

/-- Lower-case hex digit character (Go's encoder emits lower-case hex in
`\u00xx` escapes). -/
def hexDigitChar (d : Nat) : Char :=
  if d < 10 then Char.ofNat (48 + d) else Char.ofNat (87 + d)

/-- Hex digit value; accepts both cases, as Go's JSON scanner does. -/
def hexVal (c : Char) : Option Nat :=
  if 48 ≤ c.toNat ∧ c.toNat ≤ 57 then some (c.toNat - 48)
  else if 97 ≤ c.toNat ∧ c.toNat ≤ 102 then some (c.toNat - 87)
  else if 65 ≤ c.toNat ∧ c.toNat ≤ 70 then some (c.toNat - 55)
  else none

/-- The character for a `\uXXXX` escape code.  Go replaces a lone surrogate
escape with U+FFFD; valid scalar values map to themselves. -/
def charFromCode (n : Nat) : Char :=
  if n.isValidChar then Char.ofNat n else Char.ofNat 0xFFFD

mutual

/-- A JSON value as Go `encoding/json` materialises one into `interface`
values: `nil`, `bool`, a number (restricted here to integers), `string`,
`[]interface` and `map[string]interface`.  Objects are kept as ordered
field lists (`JObj`); a Go map corresponds to the key-sorted list. -/
inductive Json where
  | null : Json
  | bool (b : Bool) : Json
  | num (n : Int) : Json
  | str (s : String) : Json
  | arr (elems : JArr) : Json
  | obj (fields : JObj) : Json

/-- A list of JSON array elements. -/
inductive JArr where
  | nil : JArr
  | cons (hd : Json) (tl : JArr) : JArr

/-- An ordered list of JSON object fields. -/
inductive JObj where
  | nil : JObj
  | cons (key : String) (val : Json) (tl : JObj) : JObj

end

/-- Digits of `n` in order, accumulator form (`fuel ≥ n` suffices). -/
def natToCharsAux : Nat → Nat → List Char → List Char
  | 0, _, acc => acc
  | fuel + 1, n, acc =>
    if n = 0 then acc
    else natToCharsAux fuel (n / 10) (digitChar (n % 10) :: acc)

/-- Decimal rendering of a natural number, as Go prints integers. -/
def renderNat (n : Nat) : List Char :=
  if n = 0 then ['0'] else natToCharsAux n n []

/-- Decimal rendering of an integer. -/
def renderInt (i : Int) : List Char :=
  if i < 0 then '-' :: renderNat i.natAbs else renderNat i.toNat

/-- The escape `\uXXXX` of a code point below 0x10000, lower-case hex
digits, most significant first. -/
def uEscape (n : Nat) : List Char :=
  '\\' :: 'u' :: hexDigitChar (n / 4096 % 16) :: hexDigitChar (n / 256 % 16) ::
    hexDigitChar (n / 16 % 16) :: hexDigitChar (n % 16) :: []

/-- Go `encoding/json` escaping of one character inside a string literal
(default encoder: HTML escaping on): quote and backslash escaped, newline,
carriage return and tab use their shorthands, other control characters use
`\u00xx` with lower-case hex, `<`, `>`, `&`, U+2028 and U+2029 use `\u`
escapes, everything else is emitted verbatim. -/
def escapeChar (c : Char) : List Char :=
  if c = quoteC then ['\\', quoteC]
  else if c = '\\' then ['\\', '\\']
  else if c = '\n' then ['\\', 'n']
  else if c = '\r' then ['\\', 'r']
  else if c = '\t' then ['\\', 't']
  else if c.toNat < 32 then uEscape c.toNat
  else if c = '<' then uEscape 60
  else if c = '>' then uEscape 62
  else if c = '&' then uEscape 38
  else if c.toNat = 0x2028 then uEscape 0x2028
  else if c.toNat = 0x2029 then uEscape 0x2029
  else [c]

/-- Escape a whole string body. -/
def escapeList : List Char → List Char
  | [] => []
  | c :: t => escapeChar c ++ escapeList t

/-- A rendered JSON string literal (quotes included). -/
def renderStr (s : String) : List Char :=
  quoteC :: escapeList s.data ++ [quoteC]

mutual

/-- Model of `json.Marshal` of a Go value: compact rendering, no added
whitespace.  For a value standing for a Go map the field list is expected in
sorted key order (see `wfJ`), which is the order `json.Marshal` uses. -/
def renderJson : Json → List Char
  | .null => ("null").data
  | .bool true => ("true").data
  | .bool false => ("false").data
  | .num i => renderInt i
  | .str s => renderStr s
  | .arr a => '[' :: renderArr a ++ [']']
  | .obj o => lbraceC :: renderObj o ++ [rbraceC]

/-- Comma-separated rendering of array elements. -/
def renderArr : JArr → List Char
  | .nil => []
  | .cons x tl =>
    renderJson x ++ (match tl with
      | .nil => []
      | .cons _ _ => ',' :: renderArr tl)

/-- Comma-separated rendering of object fields. -/
def renderObj : JObj → List Char
  | .nil => []
  | .cons k v tl =>
    renderStr k ++ ':' :: renderJson v ++ (match tl with
      | .nil => []
      | .cons _ _ _ => ',' :: renderObj tl)

end

/-- Skip JSON whitespace. -/
def skipWs : List Char → List Char
  | [] => []
  | c :: t => if isWsC c then skipWs t else c :: t

/-- Decoding of a single-character escape (`\"`, `\\`, `\/`, `\b`, `\f`,
`\n`, `\r`, `\t`). -/
def escDecode (e : Char) : Option Char :=
  if e = quoteC then some quoteC
  else if e = '\\' then some '\\'
  else if e = '/' then some '/'
  else if e = 'b' then some (Char.ofNat 8)
  else if e = 'f' then some (Char.ofNat 12)
  else if e = 'n' then some '\n'
  else if e = 'r' then some '\r'
  else if e = 't' then some '\t'
  else none

/-- Parse the body of a JSON string literal (the opening quote already
consumed), returning the decoded characters and the input after the closing
quote.  Raw control characters are rejected, as Go's scanner rejects them. -/
def parseStringBody : List Char → Option (List Char × List Char)
  | [] => none
  | c :: rest =>
    if c = quoteC then some ([], rest)
    else if c = '\\' then
      match rest with
      | [] => none
      | e :: rest2 =>
        if e = 'u' then
          match rest2 with
          | h1 :: h2 :: h3 :: h4 :: rest3 =>
            match hexVal h1, hexVal h2, hexVal h3, hexVal h4 with
            | some a, some b, some c2, some d =>
              match parseStringBody rest3 with
              | some (cs, r) => some (charFromCode (4096 * a + 256 * b + 16 * c2 + d) :: cs, r)
              | none => none
            | _, _, _, _ => none
          | _ => none
        else
          match escDecode e with
          | some ec =>
            match parseStringBody rest2 with
            | some (cs, r) => some (ec :: cs, r)
            | none => none
          | none => none
    else if c.toNat < 32 then none
    else
      match parseStringBody rest with
      | some (cs, r) => some (c :: cs, r)
      | none => none

/-- Numeric value of a digit run (most significant first). -/
def digitsVal (l : List Char) : Nat :=
  l.foldl (fun acc c => 10 * acc + digitVal c) 0

/-- Leading-zero check: Go's JSON grammar rejects `01`. -/
def leadOk : List Char → Bool
  | [] => false
  | c :: t => if c = '0' then t.isEmpty else true

/-- Parse a maximal run of decimal digits as a natural number.  Fractions and
exponents are outside the integer fragment modelled here. -/
def parseNat (s : List Char) : Option (Nat × List Char) :=
  let ds := s.takeWhile isDigitC
  if ds.isEmpty then none
  else if leadOk ds then some (digitsVal ds, s.dropWhile isDigitC)
  else none

mutual

/-- Fuel-indexed parser for one JSON value, mirroring the grammar
`encoding/json` accepts (integer numerics).  Returns the value and the
unconsumed input; any fuel at least `fuelV` of the value suffices (see
`parseValue_render`). -/
def parseValue : Nat → List Char → Option (Json × List Char)
  | 0, _ => none
  | n + 1, s =>
    match skipWs s with
    | [] => none
    | c :: rest =>
      if c = quoteC then
        match parseStringBody rest with
        | some (cs, r) => some (.str (String.mk cs), r)
        | none => none
      else if c = lbraceC then
        match skipWs rest with
        | [] => none
        | d :: r2 =>
          if d = rbraceC then some (.obj .nil, r2)
          else
            match parseFields n (d :: r2) with
            | some (fs, r) => some (.obj fs, r)
            | none => none
      else if c = '[' then
        match skipWs rest with
        | [] => none
        | d :: r2 =>
          if d = ']' then some (.arr .nil, r2)
          else
            match parseElems n (d :: r2) with
            | some (xs, r) => some (.arr xs, r)
            | none => none
      else if c = 't' then
        match rest with
        | 'r' :: 'u' :: 'e' :: r => some (.bool true, r)
        | _ => none
      else if c = 'f' then
        match rest with
        | 'a' :: 'l' :: 's' :: 'e' :: r => some (.bool false, r)
        | _ => none
      else if c = 'n' then
        match rest with
        | 'u' :: 'l' :: 'l' :: r => some (.null, r)
        | _ => none
      else if c = '-' then
        match parseNat rest with
        | some (k, r) => some (.num (-(k : Int)), r)
        | none => none
      else if isDigitC c then
        match parseNat (c :: rest) with
        | some (k, r) => some (.num (k : Int), r)
        | none => none
      else none

/-- Parse a non-empty object field list up to and including the closing
brace. -/
def parseFields : Nat → List Char → Option (JObj × List Char)
  | 0, _ => none
  | n + 1, s =>
    match skipWs s with
    | c :: rest =>
      if c = quoteC then
        match parseStringBody rest with
        | some (key, r1) =>
          match skipWs r1 with
          | d :: r2 =>
            if d = ':' then
              match parseValue n r2 with
              | some (v, r3) =>
                match skipWs r3 with
                | e :: r4 =>
                  if e = ',' then
                    match parseFields n r4 with
                    | some (fs, r) => some (.cons (String.mk key) v fs, r)
                    | none => none
                  else if e = rbraceC then some (.cons (String.mk key) v .nil, r4)
                  else none
                | [] => none
              | none => none
            else none
          | [] => none
        | none => none
      else none
    | [] => none

/-- Parse a non-empty array element list up to and including the closing
bracket. -/
def parseElems : Nat → List Char → Option (JArr × List Char)
  | 0, _ => none
  | n + 1, s =>
    match parseValue n s with
    | some (v, r1) =>
      match skipWs r1 with
      | e :: r2 =>
        if e = ',' then
          match parseElems n r2 with
          | some (xs, r) => some (.cons v xs, r)
          | none => none
        else if e = ']' then some (.cons v .nil, r2)
        else none
      | [] => none
    | none => none

end

mutual

/-- Fuel sufficient for `parseValue` on the rendering of a value. -/
def fuelV : Json → Nat
  | .null => 1
  | .bool _ => 1
  | .num _ => 1
  | .str _ => 1
  | .arr a => 1 + fuelA a
  | .obj o => 1 + fuelO o

/-- Fuel sufficient for `parseElems` on rendered elements. -/
def fuelA : JArr → Nat
  | .nil => 0
  | .cons x tl => 1 + fuelV x + fuelA tl

/-- Fuel sufficient for `parseFields` on rendered fields. -/
def fuelO : JObj → Nat
  | .nil => 0
  | .cons _ v tl => 1 + fuelV v + fuelO tl

end

/-- Keys of an object field list are strictly sorted (the order
`json.Marshal` emits the entries of a Go map in). -/
def sortedKeys : JObj → Bool
  | .nil => true
  | .cons k _ tl => match tl with
    | .nil => true
    | .cons k2 _ _ => decide (k < k2) && sortedKeys tl

mutual

/-- Well-formedness: every object field list in the value is strictly
key-sorted, so the value is the canonical image of a Go map/slice tree.
This is the fragment on which `renderJson` is a faithful model of
`json.Marshal`. -/
def wfJ : Json → Bool
  | .null => true
  | .bool _ => true
  | .num _ => true
  | .str _ => true
  | .arr a => wfA a
  | .obj o => sortedKeys o && wfO o

/-- Well-formedness of array elements. -/
def wfA : JArr → Bool
  | .nil => true
  | .cons x tl => wfJ x && wfA tl

/-- Well-formedness of object field values. -/
def wfO : JObj → Bool
  | .nil => true
  | .cons _ v tl => wfJ v && wfO tl

end

/-- All characters are JSON whitespace (`json.Unmarshal` permits trailing
whitespace after the top-level value and nothing else). -/
def allWsB : List Char → Bool
  | [] => true
  | c :: t => isWsC c && allWsB t

/-- Model of `json.Unmarshal(body, ...)` reading one top-level value: the
whole input must be consumed up to trailing whitespace. -/
def unmarshalTop (body : List Char) : Option Json :=
  match parseValue (body.length + 1) body with
  | some (v, rest) => if allWsB rest then some v else none
  | none => none

/-- Case folding of one character as `encoding/json`'s field-name matching
folds it (fold.go): ASCII upper-case letters fold to lower case, and the two
special runes with a simple fold into ASCII — U+017F (long s) and U+212A
(Kelvin sign) — fold to `s` and `k`; everything else is itself.  For the two
ASCII field names matched here this reproduces `equalFoldRight` (used for
`errorMessage`, whose letters include an s) and `simpleLetterEqualFold`
(used for `errorType`): a special rune can only fold to `s` or `k`, and
`errortype` contains neither letter. -/
def foldChar (c : Char) : Char :=
  if 65 ≤ c.toNat ∧ c.toNat ≤ 90 then Char.ofNat (c.toNat + 32)
  else if c.toNat = 0x17F then 's'
  else if c.toNat = 0x212A then 'k'
  else c

/-- Go `encoding/json` matches an incoming object key against a struct field
name case-insensitively (an exact match merely takes precedence, with the
same result): the key and the name are equal under `foldChar`.  Under
`DisallowUnknownFields` such a key is a matched field, not an unknown one. -/
def keyFoldMatches (key name : String) : Bool :=
  key.data.map foldChar = name.data.map foldChar

/-- Decoding an object's fields into the two-field struct `functionError`
(`errorMessage *string`, `errorType *string`) with
`DisallowUnknownFields` set: a key matching neither field name (matching is
case-insensitive, see `keyFoldMatches`) is an error; a string value sets
the matched field, a JSON null resets it to nil, any other value type is an
error; later duplicates win. -/
def funcErrFold : JObj → Option String → Option String → Option (Option String × Option String)
  | .nil, m, t => some (m, t)
  | .cons k v tl, m, t =>
    if keyFoldMatches k "errorMessage" then
      match v with
      | .str s => funcErrFold tl (some s) t
      | .null => funcErrFold tl none t
      | _ => none
    else if keyFoldMatches k "errorType" then
      match v with
      | .str s => funcErrFold tl m (some s)
      | .null => funcErrFold tl m none
      | _ => none
    else none

/-- Model of step 1 of the decode chain (src/aws/lambda/lambda.go:307-312):
`json.Decoder.Decode` into `&functionError` with `DisallowUnknownFields`,
followed by the `Message != nil && Type != nil` guard.  `Decode` reads one
value and ignores trailing input, so only a prefix parse is required. -/
def decodeFuncError (body : List Char) : Option (String × String) :=
  match parseValue (body.length + 1) body with
  | some (.obj fs, _) =>
    match funcErrFold fs none none with
    | some (some m, some t) => some (m, t)
    | _ => none
  | _ => none

/-- Model of `json.Unmarshal(body, &bodyMap)` for
`bodyMap map[string]interface`.  A JSON `null` succeeds leaving the map
nil; that nil map is modelled as the empty field list. -/
def unmarshalMap (body : List Char) : Option JObj :=
  match unmarshalTop body with
  | some (.obj fs) => some fs
  | some .null => some .nil
  | _ => none

/-- Model of `json.Unmarshal(body, &bodyArray)` for
`bodyArray []interface`.  A JSON `null` succeeds leaving the slice nil. -/
def unmarshalArr (body : List Char) : Option JArr :=
  match unmarshalTop body with
  | some (.arr xs) => some xs
  | some .null => some .nil
  | _ => none

/-- Drop one leading double quote if present (`strings.TrimPrefix`). -/
def trimPfx : List Char → List Char
  | [] => []
  | c :: t => if c = quoteC then t else c :: t

/-- Drop one trailing double quote if present (`strings.TrimSuffix`). -/
def trimSfx (l : List Char) : List Char :=
  (trimPfx l.reverse).reverse

/-- The classification `parseResponsePayload` produces: the Go function
returns `interface` holding nil, `*functionError`, a map, a slice, or a
string. -/
inductive ParsedPayload where
  | nilP : ParsedPayload
  | funcError (message errType : String) : ParsedPayload
  | map (fields : JObj) : ParsedPayload
  | arr (elems : JArr) : ParsedPayload
  | str (s : String) : ParsedPayload

/-- Direct translation of `parseResponsePayload`
(src/aws/lambda/lambda.go:304-329): empty input is the absent value;
otherwise try, in order, the strict function-error decode, a generic map,
a generic array, and finally return the text with one layer of enclosing
double quotes stripped. -/
def parseResponsePayload (body : List Char) : ParsedPayload :=
  match body with
  | [] => .nilP
  | _ :: _ =>
    match decodeFuncError body with
    | some (m, t) => .funcError m t
    | none =>
      match unmarshalMap body with
      | some fs => .map fs
      | none =>
        match unmarshalArr body with
        | some xs => .arr xs
        | none => .str (String.mk (trimSfx (trimPfx body)))

/-- Go's `%q` of a string (modulo escaping of special characters, which the
validator's messages are never compared under). -/
def goQuote (s : String) : String := "\"" ++ s ++ "\""

/-- Message of the version check (src/aws/lambda/lambda.go:348). -/
def versionMismatchMsg (expected actual : String) : String :=
  "expected to execute version " ++ goQuote expected ++
    ", but executed version " ++ goQuote actual

/-- Message of the status check (src/aws/lambda/lambda.go:352). -/
def statusMismatchMsg (expected actual : Int) : String :=
  "expected status " ++ Int.repr expected ++ ", got " ++ Int.repr actual

/-- Message of the function-error mismatch (src/aws/lambda/lambda.go:358). -/
def funcErrorMismatchMsg (expected actual : String) : String :=
  "expected function error " ++ goQuote expected ++ ", got " ++ goQuote actual

/-- Message of the undeclared-function-error mismatch
(src/aws/lambda/lambda.go:362). -/
def noFuncErrorExpectedMsg (actual : String) : String :=
  "expected no function error, got " ++ goQuote actual

/-- `ResponseExpectations` (src/aws/lambda/lambda.go:273-279).  The expected
payload is an arbitrary Go value handed to the external deep-comparison
collaborator, so its type is a parameter; `none` models the nil interface.
`status = 0` is the in-band marker for "no status declared", exactly as the
Go zero value is. -/
structure ResponseExpectations (α : Type) where
  functionError : String
  payload : Option α
  status : Int
  version : String
  wantExactJSONPayload : Bool

/-- The observed outcome fields of `TestResult`
(src/aws/lambda/lambda.go:281-290).  `invocationError = some msg` models a
non-nil transport error whose `awserr.Error` message is `msg` (the AWS SDK
contract the code's type assertion at line 341 relies on). -/
structure LambdaResult where
  functionError : String
  invocationError : Option String
  payload : List Char
  status : Int
  version : String

/-- Check 1, unexpected invocation (transport) failure
(src/aws/lambda/lambda.go:340-343). -/
def invocationCheck {α : Type} (exp : ResponseExpectations α) (r : LambdaResult) : List String :=
  match r.invocationError with
  | some msg => if exp.status ≠ 0 ∧ r.status = exp.status then [] else [msg]
  | none => []

/-- Check 2, version mismatch (src/aws/lambda/lambda.go:347-349). -/
def versionCheck {α : Type} (exp : ResponseExpectations α) (r : LambdaResult) : List String :=
  if exp.version ≠ "" ∧ r.version ≠ exp.version then
    [versionMismatchMsg exp.version r.version]
  else []

/-- Check 3, status mismatch (src/aws/lambda/lambda.go:351-353). -/
def statusCheck {α : Type} (exp : ResponseExpectations α) (r : LambdaResult) : List String :=
  if exp.status ≠ 0 ∧ r.status ≠ exp.status then
    [statusMismatchMsg exp.status r.status]
  else []

/-- Check 4, the logical-error check (src/aws/lambda/lambda.go:355-364).
When a function error is declared and the observed indicator is exactly
"Unhandled", the Go code casts `parseResponsePayload(r.Payload)` to
`*functionError` and dereferences its message; if the decoded payload is
anything else the cast panics, modelled by `none`. -/
def funcErrorCheck {α : Type} (exp : ResponseExpectations α) (r : LambdaResult) :
    Option (List String) :=
  if exp.functionError ≠ "" ∧ r.functionError = "Unhandled" then
    match parseResponsePayload r.payload with
    | .funcError m _ =>
      some (if m ≠ exp.functionError then [funcErrorMismatchMsg exp.functionError m] else [])
    | _ => none
  else
    some (if r.functionError ≠ "" then [noFuncErrorExpectedMsg r.functionError] else [])

/-- Check 5, payload comparison (src/aws/lambda/lambda.go:366-371).  The
deep comparison `expect.Value` lives in the external melatonin repository;
it is the collaborator parameter `ev`, called with the field name "body",
the declared value, the decoded payload, and the exact-match flag. -/
def payloadCheck {α : Type} (ev : String → α → ParsedPayload → Bool → List String)
    (exp : ResponseExpectations α) (r : LambdaResult) : List String :=
  match exp.payload with
  | some p => ev "body" p (parseResponsePayload r.payload) exp.wantExactJSONPayload
  | none => []

/-- `TestResult.validateExpectations` (src/aws/lambda/lambda.go:336-372):
the five checks run in order, each appending its errors to `r.errors`;
`none` models the run panicking (inside check 4).  The same body also
models the duplicate `LambdaTestResult.validateExpectations`
(src/aws/lambda.go:330-366). -/
def validateExpectations {α : Type} (ev : String → α → ParsedPayload → Bool → List String)
    (exp : ResponseExpectations α) (r : LambdaResult) : Option (List String) :=
  match funcErrorCheck exp r with
  | some e4 =>
    some (invocationCheck exp r ++ versionCheck exp r ++ statusCheck exp r ++
      e4 ++ payloadCheck ev exp r)
  | none => none

/-- The validator's checks 2-5, used to state that the invocation-failure
check never short-circuits the rest. -/
def validateTail {α : Type} (ev : String → α → ParsedPayload → Bool → List String)
    (exp : ResponseExpectations α) (r : LambdaResult) : Option (List String) :=
  match funcErrorCheck exp r with
  | some e4 =>
    some (versionCheck exp r ++ statusCheck exp r ++ e4 ++ payloadCheck ev exp r)
  | none => none

/-- The dynamic type of `TestCase.Payload` (src/aws/lambda/lambda.go:74),
one case per arm of the type switch in `requestPayloadBytes`.  A Go byte
slice is `Option (List Char)` so that the nil slice (`none`) stays distinct
from the empty non-nil slice (`some []`).  A producer is modelled as a
stream of results indexed by how many times it has been invoked, so that
invocation counts are observable. -/
inductive ReqPayload where
  | nilPayload : ReqPayload
  | bytes (b : Option (List Char)) : ReqPayload
  | strPayload (s : List Char) : ReqPayload
  | producer (f : Nat → Option (List Char)) : ReqPayload
  | producerE (f : Nat → Option (List Char) × Option String) : ReqPayload
  | value (v : Json) : ReqPayload

/-- The mutable state `requestPayloadBytes` works on: the configured
payload, the `payloadBytes` cache (`none` models the nil slice the field
starts as), and the number of producer invocations so far. -/
structure PayloadState where
  payload : ReqPayload
  payloadBytes : Option (List Char)
  producerCalls : Nat

/-- `TestCase.requestPayloadBytes` (src/aws/lambda/lambda.go:243-271).
If the cache is a non-nil slice it is returned; otherwise the payload is
resolved per its dynamic type (`string` conversion always yields a non-nil
slice in Go, `json.Marshal` is `renderJson`, a producer error returns
early wrapped as "request body: ..." without touching the cache), the
result — possibly nil — is stored in the cache and returned. -/
def requestPayloadBytes (s : PayloadState) :
    Except String (Option (List Char)) × PayloadState :=
  match s.payloadBytes with
  | some b => (.ok (some b), s)
  | none =>
    match s.payload with
    | .nilPayload => (.ok none, { s with payloadBytes := none })
    | .bytes b => (.ok b, { s with payloadBytes := b })
    | .strPayload cs => (.ok (some cs), { s with payloadBytes := some cs })
    | .producer f =>
      let r := f s.producerCalls
      (.ok r, { s with payloadBytes := r, producerCalls := s.producerCalls + 1 })
    | .producerE f =>
      let r := f s.producerCalls
      match r.2 with
      | some msg =>
        (.error ("request body: " ++ msg), { s with producerCalls := s.producerCalls + 1 })
      | none =>
        (.ok r.1, { s with payloadBytes := r.1, producerCalls := s.producerCalls + 1 })
    | .value v =>
      (.ok (some (renderJson v)), { s with payloadBytes := some (renderJson v) })

/-- The exec extension's expectations (src/exec/exec.go:144-148): each field
is an independent optional assertion. -/
structure ExecExpectations where
  exitCode : Option Int
  stdout : Option String
  stderr : Option String

/-- The error `exec.Cmd.Run` reported, as the `switch` at
src/exec/exec.go:68-73 distinguishes it: a `*fs.PathError` (formatted
"path: msg") or any other error (its own text). -/
inductive CmdError where
  | pathError (path msg : String) : CmdError
  | other (msg : String) : CmdError

/-- The behaviour of the process-execution collaborator (`os/exec`) for one
`Run` call: the returned error, the `ProcessState` left on the command
(`none` when the process never started — Go leaves the field nil in that
case, and `(*os.ProcessState).ExitCode()` guards the nil receiver and
returns -1), and the text captured on the two output channels. -/
structure CmdBehavior where
  runError : Option CmdError
  processState : Option Int
  stdout : String
  stderr : String

/-- Message of the exit-code check (src/exec/exec.go:173). -/
def exitCodeMismatchMsg (expected actual : Int) : String :=
  "expected exit code " ++ Int.repr expected ++ ", got " ++ Int.repr actual

/-- Message of the stdout check (src/exec/exec.go:177). -/
def stdoutMismatchMsg (expected actual : String) : String :=
  "expected stdout " ++ goQuote expected ++ ", got " ++ goQuote actual

/-- Message of the stderr check (src/exec/exec.go:181). -/
def stderrMismatchMsg (expected actual : String) : String :=
  "expected stderr " ++ goQuote expected ++ ", got " ++ goQuote actual

/-- The observable fields of the exec `TestResult`
(src/exec/exec.go:150-157). -/
structure ExecResult where
  exitCode : Int
  stdout : String
  stderr : String
  errors : List String

/-- `TestResult.validateExpectations` of the exec extension
(src/exec/exec.go:169-183): three independent optional equality checks. -/
def execValidate (exp : ExecExpectations) (r : ExecResult) : List String :=
  (match exp.exitCode with
    | some c => if r.exitCode ≠ c then [exitCodeMismatchMsg c r.exitCode] else []
    | none => []) ++
  (match exp.stdout with
    | some s => if r.stdout ≠ s then [stdoutMismatchMsg s r.stdout] else []
    | none => []) ++
  (match exp.stderr with
    | some s => if r.stderr ≠ s then [stderrMismatchMsg s r.stderr] else []
    | none => [])

/-- `TestCase.Execute` of the exec extension (src/exec/exec.go:58-82):
run the command, append the launch/run error if any, then read
`tc.command.ProcessState.ExitCode()` and validate expectations
unconditionally.  When the process never started, `ProcessState` is nil
and `(*os.ProcessState).ExitCode()` returns -1 ("return -1 if the process
hasn't started"). -/
def execExecute (cmd : CmdBehavior) (exp : ExecExpectations) : ExecResult :=
  let errs :=
    match cmd.runError with
    | some (.pathError p m) => [p ++ ": " ++ m]
    | some (.other m) => [m]
    | none => []
  let code : Int :=
    match cmd.processState with
    | none => -1
    | some c => c
  let r0 : ExecResult :=
    { exitCode := code, stdout := cmd.stdout, stderr := cmd.stderr, errors := errs }
  { r0 with errors := r0.errors ++ execValidate exp r0 }

/-- No field of the object collides with `errorMessage` or `errorType`
under `encoding/json`'s case-insensitive field matching: the "no colliding
reserved field names" condition of the decode round trip. -/
def reservedFree : JObj → Bool
  | .nil => true
  | .cons k _ tl =>
    (!keyFoldMatches k "errorMessage" && !keyFoldMatches k "errorType") && reservedFree tl

/-- The input following a rendered value must not begin with a digit (it
begins with a separator or is empty wherever the parser is applied), so a
rendered number is not extended by the maximal-munch digit scan. -/
def restOk (rest : List Char) : Prop :=
  ∀ c, rest.head? = some c → isDigitC c = false

/-! ## Decimal rendering lemmas -/

theorem natToCharsAux_zero (fuel : Nat) (acc : List Char) :
    natToCharsAux fuel 0 acc = acc := by
  cases fuel <;> simp [natToCharsAux]

theorem natToCharsAux_append (fuel : Nat) :
    ∀ n acc, natToCharsAux fuel n acc = natToCharsAux fuel n [] ++ acc := by
  induction fuel with
  | zero => intro n acc; simp [natToCharsAux]
  | succ f ih =>
    intro n acc
    by_cases h : n = 0
    · simp [natToCharsAux, h]
    · rw [natToCharsAux, natToCharsAux, if_neg h, if_neg h,
        ih (n / 10) (digitChar (n % 10) :: acc), ih (n / 10) [digitChar (n % 10)]]
      simp

theorem digitChar_toNat (d : Nat) (h : d < 10) : (digitChar d).toNat = 48 + d := by
  interval_cases d <;> rfl

theorem isDigitC_digitChar (d : Nat) (h : d < 10) : isDigitC (digitChar d) = true := by
  simp only [isDigitC, digitChar_toNat d h, Bool.and_eq_true, decide_eq_true_eq]
  omega

theorem digitVal_digitChar (d : Nat) (h : d < 10) : digitVal (digitChar d) = d := by
  simp [digitVal, digitChar_toNat d h]

theorem digitsVal_append_one (xs : List Char) (d : Char) :
    digitsVal (xs ++ [d]) = 10 * digitsVal xs + digitVal d := by
  simp [digitsVal, List.foldl_append]

theorem digitChar_ne_zeroChar (d : Nat) (h1 : d < 10) (h2 : d ≠ 0) :
    digitChar d ≠ '0' := by
  intro he
  have := congrArg Char.toNat he
  rw [digitChar_toNat d h1] at this
  have h0 : ('0').toNat = 48 := rfl
  omega

theorem natToCharsAux_spec : ∀ fuel n, 0 < n → n ≤ fuel →
    (∀ c ∈ natToCharsAux fuel n [], isDigitC c = true) ∧
    (∃ c t, natToCharsAux fuel n [] = c :: t ∧ c ≠ '0') ∧
    digitsVal (natToCharsAux fuel n []) = n := by
  intro fuel
  induction fuel with
  | zero => intro n h1 h2; omega
  | succ f ih =>
    intro n h1 h2
    have hn : n ≠ 0 := by omega
    have hmod : n % 10 < 10 := Nat.mod_lt n (by norm_num)
    rw [natToCharsAux, if_neg hn, natToCharsAux_append]
    by_cases h10 : n / 10 = 0
    · have hlt : n < 10 := by omega
      have hmn : n % 10 = n := Nat.mod_eq_of_lt hlt
      rw [h10, natToCharsAux_zero]
      refine ⟨?_, ⟨digitChar (n % 10), [], by simp, ?_⟩, ?_⟩
      · intro c hc
        simp at hc
        rw [hc]
        exact isDigitC_digitChar _ hmod
      · exact digitChar_ne_zeroChar _ hmod (by omega)
      · rw [hmn]
        simp [digitsVal, digitVal_digitChar n hlt]
    · have hpos : 0 < n / 10 := Nat.pos_of_ne_zero h10
      have hlt : n / 10 < n := Nat.div_lt_self h1 (by norm_num)
      obtain ⟨ha, ⟨c, t, hct, hc0⟩, hv⟩ := ih (n / 10) hpos (by omega)
      refine ⟨?_, ⟨c, t ++ [digitChar (n % 10)], by rw [hct]; simp, hc0⟩, ?_⟩
      · intro d hd
        rcases List.mem_append.mp hd with h | h
        · exact ha d h
        · simp at h
          rw [h]
          exact isDigitC_digitChar _ hmod
      · rw [digitsVal_append_one, hv, digitVal_digitChar _ hmod]
        omega

theorem renderNat_spec (n : Nat) :
    (∀ c ∈ renderNat n, isDigitC c = true) ∧ leadOk (renderNat n) = true ∧
    digitsVal (renderNat n) = n := by
  by_cases h : n = 0
  · subst h
    refine ⟨?_, by decide, by decide⟩
    intro c hc
    simp [renderNat] at hc
    rw [hc]
    decide
  · rw [renderNat, if_neg h]
    obtain ⟨ha, ⟨c, t, hct, hc0⟩, hv⟩ :=
      natToCharsAux_spec n n (Nat.pos_of_ne_zero h) le_rfl
    refine ⟨ha, ?_, hv⟩
    rw [hct, leadOk, if_neg hc0]

theorem renderNat_ne_nil (n : Nat) : renderNat n ≠ [] := by
  by_cases h : n = 0
  · subst h; decide
  · rw [renderNat, if_neg h]
    obtain ⟨_, ⟨c, t, hct, _⟩, _⟩ := natToCharsAux_spec n n (Nat.pos_of_ne_zero h) le_rfl
    rw [hct]
    exact List.cons_ne_nil c t

theorem takeWhile_app (p : Char → Bool) :
    ∀ (ds rest : List Char), (∀ c ∈ ds, p c = true) →
    (∀ c, rest.head? = some c → p c = false) →
    (ds ++ rest).takeWhile p = ds ∧ (ds ++ rest).dropWhile p = rest := by
  intro ds
  induction ds with
  | nil =>
    intro rest _ h2
    cases rest with
    | nil => simp
    | cons c t =>
      have := h2 c rfl
      simp [List.takeWhile_cons, List.dropWhile_cons, this]
  | cons c t ih =>
    intro rest h1 h2
    have hc : p c = true := h1 c (by simp)
    obtain ⟨ht, hd⟩ := ih rest (fun x hx => h1 x (by simp [hx])) h2
    simp [List.takeWhile_cons, List.dropWhile_cons, hc, ht, hd]

theorem parseNat_render (n : Nat) (rest : List Char) (h : restOk rest) :
    parseNat (renderNat n ++ rest) = some (n, rest) := by
  obtain ⟨hd, hl, hv⟩ := renderNat_spec n
  obtain ⟨htake, hdrop⟩ := takeWhile_app isDigitC (renderNat n) rest hd h
  rw [parseNat]
  simp only [htake, hdrop]
  rw [if_neg (by simp [List.isEmpty_iff, renderNat_ne_nil n]), if_pos hl, hv]

/-! ## String-literal escaping lemmas -/

theorem hexVal_hexDigitChar (d : Nat) (h : d < 16) : hexVal (hexDigitChar d) = some d := by
  interval_cases d <;> rfl

theorem charFromCode_toNat (c : Char) (h : c.toNat < 55296) : charFromCode c.toNat = c := by
  rw [charFromCode, if_pos (Or.inl h : c.toNat.isValidChar)]
  exact Char.ofNat_toNat c

theorem parseStringBody_quote (w : List Char) :
    parseStringBody (quoteC :: w) = some ([], w) := by
  rw [parseStringBody.eq_def]
  dsimp only []
  rw [if_pos rfl]

theorem parseStringBody_esc1 (e ec : Char) (he : escDecode e = some ec) (hne : e ≠ 'u')
    (w cs r : List Char) (hw : parseStringBody w = some (cs, r)) :
    parseStringBody ('\\' :: e :: w) = some (ec :: cs, r) := by
  rw [parseStringBody.eq_def]
  dsimp only []
  rw [if_neg (show ¬(('\\' : Char) = quoteC) from by decide), if_pos rfl]
  rw [if_neg hne, he]
  dsimp only []
  rw [hw]

theorem parseStringBody_u4 (h1 h2 h3 h4 : Char) (a b c2 d : Nat)
    (e1 : hexVal h1 = some a) (e2 : hexVal h2 = some b) (e3 : hexVal h3 = some c2)
    (e4 : hexVal h4 = some d) (w cs r : List Char) (hw : parseStringBody w = some (cs, r)) :
    parseStringBody ('\\' :: 'u' :: h1 :: h2 :: h3 :: h4 :: w)
      = some (charFromCode (4096 * a + 256 * b + 16 * c2 + d) :: cs, r) := by
  rw [parseStringBody.eq_def]
  dsimp only []
  rw [if_neg (show ¬(('\\' : Char) = quoteC) from by decide), if_pos rfl]
  rw [if_pos rfl]
  rw [e1, e2, e3, e4]
  dsimp only []
  rw [hw]

theorem parseStringBody_uEscape (n : Nat) (hn : n < 55296) (w cs r : List Char)
    (hw : parseStringBody w = some (cs, r)) :
    parseStringBody (uEscape n ++ w) = some (charFromCode n :: cs, r) := by
  rw [uEscape]
  simp only [List.cons_append, List.nil_append]
  rw [parseStringBody_u4 _ _ _ _ (n / 4096 % 16) (n / 256 % 16) (n / 16 % 16) (n % 16)
    (hexVal_hexDigitChar _ (Nat.mod_lt _ (by norm_num)))
    (hexVal_hexDigitChar _ (Nat.mod_lt _ (by norm_num)))
    (hexVal_hexDigitChar _ (Nat.mod_lt _ (by norm_num)))
    (hexVal_hexDigitChar _ (Nat.mod_lt _ (by norm_num))) w cs r hw]
  rw [show 4096 * (n / 4096 % 16) + 256 * (n / 256 % 16) + 16 * (n / 16 % 16) + n % 16 = n
    from by omega]

theorem parseStringBody_verb (c : Char) (hq : c ≠ quoteC) (hb : c ≠ '\\')
    (hc : ¬(c.toNat < 32)) (w cs r : List Char) (hw : parseStringBody w = some (cs, r)) :
    parseStringBody (c :: w) = some (c :: cs, r) := by
  rw [parseStringBody.eq_def]
  dsimp only []
  rw [if_neg hq, if_neg hb, if_neg hc, hw]

theorem parseStringBody_escape :
    ∀ (cs rest : List Char),
    parseStringBody (escapeList cs ++ quoteC :: rest) = some (cs, rest) := by
  intro cs
  induction cs with
  | nil =>
    intro rest
    rw [escapeList, List.nil_append]
    exact parseStringBody_quote rest
  | cons c cs ih =>
    intro rest
    rw [escapeList, List.append_assoc]
    by_cases h1 : c = quoteC
    · subst h1
      rw [escapeChar, if_pos rfl, List.cons_append, List.cons_append, List.nil_append]
      exact parseStringBody_esc1 quoteC quoteC (by decide) (by decide) _ _ _ (ih rest)
    · by_cases h2 : c = '\\'
      · subst h2
        rw [escapeChar, if_neg h1, if_pos rfl, List.cons_append, List.cons_append,
          List.nil_append]
        exact parseStringBody_esc1 '\\' '\\' (by decide) (by decide) _ _ _ (ih rest)
      · by_cases h3 : c = '\n'
        · subst h3
          rw [escapeChar, if_neg h1, if_neg h2, if_pos rfl, List.cons_append,
            List.cons_append, List.nil_append]
          exact parseStringBody_esc1 'n' '\n' (by decide) (by decide) _ _ _ (ih rest)
        · by_cases h4 : c = '\r'
          · subst h4
            rw [escapeChar, if_neg h1, if_neg h2, if_neg h3, if_pos rfl, List.cons_append,
              List.cons_append, List.nil_append]
            exact parseStringBody_esc1 'r' '\r' (by decide) (by decide) _ _ _ (ih rest)
          · by_cases h5 : c = '\t'
            · subst h5
              rw [escapeChar, if_neg h1, if_neg h2, if_neg h3, if_neg h4, if_pos rfl,
                List.cons_append, List.cons_append, List.nil_append]
              exact parseStringBody_esc1 't' '\t' (by decide) (by decide) _ _ _ (ih rest)
            · by_cases h6 : c.toNat < 32
              · rw [escapeChar, if_neg h1, if_neg h2, if_neg h3, if_neg h4, if_neg h5,
                  if_pos h6,
                  parseStringBody_uEscape c.toNat (by omega) _ _ _ (ih rest),
                  charFromCode_toNat c (by omega)]
              · by_cases h7 : c = '<'
                · subst h7
                  rw [escapeChar, if_neg h1, if_neg h2, if_neg h3, if_neg h4, if_neg h5,
                    if_neg h6, if_pos rfl,
                    parseStringBody_uEscape 60 (by norm_num) _ _ _ (ih rest),
                    show charFromCode 60 = '<' from by decide]
                · by_cases h8 : c = '>'
                  · subst h8
                    rw [escapeChar, if_neg h1, if_neg h2, if_neg h3, if_neg h4, if_neg h5,
                      if_neg h6, if_neg h7, if_pos rfl,
                      parseStringBody_uEscape 62 (by norm_num) _ _ _ (ih rest),
                      show charFromCode 62 = '>' from by decide]
                  · by_cases h9 : c = '&'
                    · subst h9
                      rw [escapeChar, if_neg h1, if_neg h2, if_neg h3, if_neg h4, if_neg h5,
                        if_neg h6, if_neg h7, if_neg h8, if_pos rfl,
                        parseStringBody_uEscape 38 (by norm_num) _ _ _ (ih rest),
                        show charFromCode 38 = '&' from by decide]
                    · by_cases h10 : c.toNat = 8232
                      · rw [escapeChar, if_neg h1, if_neg h2, if_neg h3, if_neg h4,
                          if_neg h5, if_neg h6, if_neg h7, if_neg h8, if_neg h9,
                          if_pos h10,
                          parseStringBody_uEscape 0x2028 (by norm_num) _ _ _ (ih rest),
                          show (0x2028 : Nat) = c.toNat from by omega,
                          charFromCode_toNat c (by omega)]
                      · by_cases h11 : c.toNat = 8233
                        · rw [escapeChar, if_neg h1, if_neg h2, if_neg h3, if_neg h4,
                            if_neg h5, if_neg h6, if_neg h7, if_neg h8, if_neg h9,
                            if_neg h10, if_pos h11,
                            parseStringBody_uEscape 0x2029 (by norm_num) _ _ _ (ih rest),
                            show (0x2029 : Nat) = c.toNat from by omega,
                            charFromCode_toNat c (by omega)]
                        · rw [escapeChar, if_neg h1, if_neg h2, if_neg h3, if_neg h4,
                            if_neg h5, if_neg h6, if_neg h7, if_neg h8, if_neg h9,
                            if_neg h10, if_neg h11, List.cons_append, List.nil_append]
                          exact parseStringBody_verb c h1 h2 h6 _ _ _ (ih rest)

/-! ## Parser step lemmas -/

theorem skipWs_cons (c : Char) (t : List Char) (h : isWsC c = false) :
    skipWs (c :: t) = c :: t := by
  simp [skipWs, h]

theorem digit_bounds (c : Char) (h : isDigitC c = true) :
    48 ≤ c.toNat ∧ c.toNat ≤ 57 := by
  simpa [isDigitC, Bool.and_eq_true, decide_eq_true_eq] using h

theorem digit_ne (c : Char) (h : isDigitC c = true) (d : Char)
    (hd : ¬(48 ≤ d.toNat ∧ d.toNat ≤ 57)) : c ≠ d := by
  intro he
  exact hd (he ▸ digit_bounds c h)

theorem digit_not_ws (c : Char) (h : isDigitC c = true) : isWsC c = false := by
  rw [isWsC]
  simp only [Bool.or_eq_false_iff, decide_eq_false_iff_not]
  exact ⟨⟨⟨digit_ne c h ' ' (by decide), digit_ne c h '\t' (by decide)⟩,
    digit_ne c h '\n' (by decide)⟩, digit_ne c h '\r' (by decide)⟩

theorem renderHead (v : Json) :
    ∃ c t, renderJson v = c :: t ∧ isWsC c = false ∧ c ≠ ']' := by
  cases v with
  | null => exact ⟨'n', _, rfl, by decide, by decide⟩
  | bool b =>
    cases b with
    | true => exact ⟨'t', _, rfl, by decide, by decide⟩
    | false => exact ⟨'f', _, rfl, by decide, by decide⟩
  | num i =>
    rw [renderJson]
    by_cases hi : i < 0
    · rw [renderInt, if_pos hi]
      exact ⟨'-', _, rfl, by decide, by decide⟩
    · rw [renderInt, if_neg hi]
      rcases hcase : renderNat i.toNat with _ | ⟨c, t⟩
      · exact absurd hcase (renderNat_ne_nil _)
      · have hc : isDigitC c = true := (renderNat_spec i.toNat).1 c (by rw [hcase]; simp)
        exact ⟨c, t, rfl, digit_not_ws c hc, digit_ne c hc ']' (by decide)⟩
  | str s =>
    rw [renderJson, renderStr]
    exact ⟨quoteC, _, rfl, by decide, by decide⟩
  | arr a => exact ⟨'[', _, rfl, by decide, by decide⟩
  | obj o => exact ⟨lbraceC, _, rfl, by decide, by decide⟩

theorem restOk_head (c : Char) (h : isDigitC c = false) (l : List Char) :
    restOk (c :: l) := by
  intro d hd
  simp only [List.head?] at hd
  rw [← Option.some.injEq c d |>.mp hd]
  exact h

theorem restOk_nil : restOk [] := by
  intro d hd
  simp [List.head?] at hd

theorem fuelV_pos (v : Json) : 1 ≤ fuelV v := by
  cases v <;> simp [fuelV]

theorem parseValue_strStep (m : Nat) (bdy cs r : List Char)
    (h : parseStringBody bdy = some (cs, r)) :
    parseValue (m + 1) (quoteC :: bdy) = some (.str (String.mk cs), r) := by
  rw [parseValue.eq_def]
  dsimp only []
  rw [skipWs_cons _ _ (by decide)]
  dsimp only []
  rw [if_pos rfl, h]

theorem parseValue_objStep (m : Nat) (d : Char) (w : List Char) (fs : JObj) (r : List Char)
    (hdws : isWsC d = false) (hd : d ≠ rbraceC)
    (h : parseFields m (d :: w) = some (fs, r)) :
    parseValue (m + 1) (lbraceC :: d :: w) = some (.obj fs, r) := by
  rw [parseValue.eq_def]
  dsimp only []
  rw [skipWs_cons _ _ (by decide)]
  dsimp only []
  rw [if_neg (show ¬(lbraceC = quoteC) from by decide), if_pos rfl,
    skipWs_cons _ _ hdws]
  dsimp only []
  rw [if_neg hd, h]

theorem parseValue_arrStep (m : Nat) (d : Char) (w : List Char) (xs : JArr) (r : List Char)
    (hdws : isWsC d = false) (hd : d ≠ ']')
    (h : parseElems m (d :: w) = some (xs, r)) :
    parseValue (m + 1) ('[' :: d :: w) = some (.arr xs, r) := by
  rw [parseValue.eq_def]
  dsimp only []
  rw [skipWs_cons _ _ (by decide)]
  dsimp only []
  rw [if_neg (show ¬(('[' : Char) = quoteC) from by decide),
    if_neg (show ¬(('[' : Char) = lbraceC) from by decide), if_pos rfl,
    skipWs_cons _ _ hdws]
  dsimp only []
  rw [if_neg hd, h]

theorem parseValue_negStep (m : Nat) (w : List Char) (k : Nat) (r : List Char)
    (h : parseNat w = some (k, r)) :
    parseValue (m + 1) ('-' :: w) = some (.num (-(k : Int)), r) := by
  rw [parseValue.eq_def]
  dsimp only []
  rw [skipWs_cons _ _ (by decide)]
  dsimp only []
  rw [if_neg (by decide), if_neg (by decide), if_neg (by decide), if_neg (by decide),
    if_neg (by decide), if_neg (by decide), if_pos rfl, h]

theorem parseValue_digitStep (m : Nat) (c : Char) (w : List Char) (k : Nat) (r : List Char)
    (hc : isDigitC c = true) (h : parseNat (c :: w) = some (k, r)) :
    parseValue (m + 1) (c :: w) = some (.num (k : Int), r) := by
  rw [parseValue.eq_def]
  dsimp only []
  rw [skipWs_cons _ _ (digit_not_ws c hc)]
  dsimp only []
  rw [if_neg (digit_ne c hc quoteC (by decide)),
    if_neg (digit_ne c hc lbraceC (by decide)),
    if_neg (digit_ne c hc '[' (by decide)),
    if_neg (digit_ne c hc 't' (by decide)),
    if_neg (digit_ne c hc 'f' (by decide)),
    if_neg (digit_ne c hc 'n' (by decide)),
    if_neg (digit_ne c hc '-' (by decide)),
    if_pos hc, h]

theorem parseFields_last (m : Nat) (kd r2 : List Char) (v : Json) (rest : List Char)
    (hv : parseValue m r2 = some (v, rbraceC :: rest)) :
    parseFields (m + 1) (quoteC :: (escapeList kd ++ quoteC :: ':' :: r2))
      = some (.cons (String.mk kd) v .nil, rest) := by
  rw [parseFields.eq_def]
  dsimp only []
  rw [skipWs_cons _ _ (by decide)]
  dsimp only []
  rw [if_pos rfl, parseStringBody_escape]
  dsimp only []
  rw [skipWs_cons _ _ (by decide)]
  dsimp only []
  rw [if_pos rfl, hv]
  dsimp only []
  rw [skipWs_cons _ _ (by decide)]
  dsimp only []
  rw [if_neg (show ¬(rbraceC = ',') from by decide), if_pos rfl]

theorem parseFields_more (m : Nat) (kd r2 : List Char) (v : Json) (w : List Char)
    (fs : JObj) (r : List Char)
    (hv : parseValue m r2 = some (v, ',' :: w))
    (hrec : parseFields m w = some (fs, r)) :
    parseFields (m + 1) (quoteC :: (escapeList kd ++ quoteC :: ':' :: r2))
      = some (.cons (String.mk kd) v fs, r) := by
  rw [parseFields.eq_def]
  dsimp only []
  rw [skipWs_cons _ _ (by decide)]
  dsimp only []
  rw [if_pos rfl, parseStringBody_escape]
  dsimp only []
  rw [skipWs_cons _ _ (by decide)]
  dsimp only []
  rw [if_pos rfl, hv]
  dsimp only []
  rw [skipWs_cons _ _ (by decide)]
  dsimp only []
  rw [if_pos rfl, hrec]

theorem parseElems_last (m : Nat) (s : List Char) (v : Json) (rest : List Char)
    (hv : parseValue m s = some (v, ']' :: rest)) :
    parseElems (m + 1) s = some (.cons v .nil, rest) := by
  rw [parseElems.eq_def]
  dsimp only []
  rw [hv]
  dsimp only []
  rw [skipWs_cons _ _ (by decide)]
  dsimp only []
  rw [if_neg (show ¬((']' : Char) = ',') from by decide), if_pos rfl]

theorem parseElems_more (m : Nat) (s : List Char) (v : Json) (w : List Char)
    (xs : JArr) (r : List Char)
    (hv : parseValue m s = some (v, ',' :: w))
    (hrec : parseElems m w = some (xs, r)) :
    parseElems (m + 1) s = some (.cons v xs, r) := by
  rw [parseElems.eq_def]
  dsimp only []
  rw [hv]
  dsimp only []
  rw [skipWs_cons _ _ (by decide)]
  dsimp only []
  rw [if_pos rfl, hrec]

/-! ## Rendering equation lemmas (the render functions are mutual, so their
defining equations are restated for rewriting) -/

theorem renderArr_nil : renderArr .nil = [] := by
  rw [renderArr.eq_def]

theorem renderObj_nil : renderObj .nil = [] := by
  rw [renderObj.eq_def]

theorem renderArr_cons (x : Json) (tl : JArr) :
    renderArr (.cons x tl) = renderJson x ++ (match tl with
      | .nil => []
      | .cons _ _ => ',' :: renderArr tl) := by
  rw [renderArr.eq_def]

theorem renderObj_cons (k : String) (v : Json) (tl : JObj) :
    renderObj (.cons k v tl) = renderStr k ++ ':' :: renderJson v ++ (match tl with
      | .nil => []
      | .cons _ _ _ => ',' :: renderObj tl) := by
  rw [renderObj.eq_def]

theorem renderArr_one (x : Json) : renderArr (.cons x .nil) = renderJson x := by
  rw [renderArr_cons]
  dsimp only []
  exact List.append_nil _

theorem renderArr_many (x y : Json) (tl : JArr) :
    renderArr (.cons x (.cons y tl)) = renderJson x ++ ',' :: renderArr (.cons y tl) := by
  rw [renderArr_cons]

theorem renderObj_one (k : String) (v : Json) :
    renderObj (.cons k v .nil) = renderStr k ++ ':' :: renderJson v := by
  rw [renderObj_cons]
  dsimp only []
  rw [List.append_nil]

theorem renderObj_many (k : String) (v : Json) (k2 : String) (v2 : Json) (tl2 : JObj) :
    renderObj (.cons k v (.cons k2 v2 tl2))
      = renderStr k ++ ':' :: (renderJson v ++ ',' :: renderObj (.cons k2 v2 tl2)) := by
  rw [renderObj_cons]
  dsimp only []
  simp [List.append_assoc]

/-! ## Render/parse round trip -/

theorem rtAll : ∀ N : Nat,
    (∀ v : Json, fuelV v ≤ N → ∀ n rest, fuelV v ≤ n → restOk rest →
      parseValue n (renderJson v ++ rest) = some (v, rest)) ∧
    (∀ o : JObj, fuelO o ≤ N → o ≠ .nil → ∀ n rest, fuelO o ≤ n →
      parseFields n (renderObj o ++ rbraceC :: rest) = some (o, rest)) ∧
    (∀ a : JArr, fuelA a ≤ N → a ≠ .nil → ∀ n rest, fuelA a ≤ n →
      parseElems n (renderArr a ++ ']' :: rest) = some (a, rest)) := by
  intro N
  induction N with
  | zero =>
    refine ⟨?_, ?_, ?_⟩
    · intro v hv
      have := fuelV_pos v
      omega
    · intro o h0 hne
      cases o with
      | nil => exact absurd rfl hne
      | cons k v tl => simp [fuelO] at h0
    · intro a h0 hne
      cases a with
      | nil => exact absurd rfl hne
      | cons x tl => simp [fuelA] at h0
  | succ N ih =>
    obtain ⟨ihV, ihO, ihA⟩ := ih
    refine ⟨?_, ?_, ?_⟩
    · -- values
      intro v hv n rest hn hrest
      cases n with
      | zero => have := fuelV_pos v; omega
      | succ m =>
        cases v with
        | null =>
          rw [renderJson]
          simp only [List.cons_append, List.nil_append]
          exact rfl
        | bool b =>
          cases b with
          | true =>
            rw [renderJson]
            simp only [List.cons_append, List.nil_append]
            exact rfl
          | false =>
            rw [renderJson]
            simp only [List.cons_append, List.nil_append]
            exact rfl
        | num i =>
          rw [renderJson]
          by_cases hi : i < 0
          · rw [renderInt, if_pos hi, List.cons_append]
            rw [parseValue_negStep m _ i.natAbs rest (parseNat_render i.natAbs rest hrest)]
            rw [show (-(i.natAbs : Int)) = i from by omega]
          · rw [renderInt, if_neg hi]
            rcases hcase : renderNat i.toNat with _ | ⟨c, t⟩
            · exact absurd hcase (renderNat_ne_nil _)
            · have hc : isDigitC c = true :=
                (renderNat_spec i.toNat).1 c (by rw [hcase]; simp)
              have hpn : parseNat (c :: (t ++ rest)) = some (i.toNat, rest) := by
                rw [show c :: (t ++ rest) = renderNat i.toNat ++ rest from by
                  rw [hcase, List.cons_append]]
                exact parseNat_render i.toNat rest hrest
              rw [List.cons_append]
              rw [parseValue_digitStep m c (t ++ rest) i.toNat rest hc hpn]
              rw [show ((i.toNat : Int)) = i from by omega]
        | str s =>
          rw [renderJson, renderStr]
          simp only [List.cons_append, List.append_assoc, List.singleton_append,
            List.nil_append]
          rw [parseValue_strStep m _ s.data rest (parseStringBody_escape s.data rest)]
        | arr a =>
          simp only [fuelV] at hv hn
          rw [renderJson]
          simp only [List.cons_append, List.append_assoc, List.singleton_append,
            List.nil_append]
          cases a with
          | nil =>
            rw [renderArr_nil, List.nil_append]
            exact rfl
          | cons x tl =>
            obtain ⟨c, t, hct, hws, hnb⟩ := renderHead x
            have key : ∀ w, renderArr (JArr.cons x tl) ++ ']' :: rest = c :: w →
                parseValue (m + 1) ('[' :: (renderArr (JArr.cons x tl) ++ ']' :: rest))
                  = some (.arr (JArr.cons x tl), rest) := by
              intro w hw
              have helems : parseElems m (c :: w) = some (JArr.cons x tl, rest) := by
                rw [← hw]
                exact ihA (JArr.cons x tl) (by omega) (fun h => JArr.noConfusion h)
                  m rest (by omega)
              rw [hw]
              exact parseValue_arrStep m c w _ rest hws hnb helems
            cases tl with
            | nil =>
              exact key (t ++ ']' :: rest) (by rw [renderArr_one, hct, List.cons_append])
            | cons y tl2 =>
              exact key (t ++ ',' :: (renderArr (JArr.cons y tl2) ++ ']' :: rest))
                (by rw [renderArr_many, hct]; simp [List.append_assoc])
        | obj o =>
          simp only [fuelV] at hv hn
          rw [renderJson]
          simp only [List.cons_append, List.append_assoc, List.singleton_append,
            List.nil_append]
          cases o with
          | nil =>
            rw [renderObj_nil, List.nil_append]
            exact rfl
          | cons k v tl =>
            have key : ∀ w, renderObj (JObj.cons k v tl) ++ rbraceC :: rest = quoteC :: w →
                parseValue (m + 1) (lbraceC :: (renderObj (JObj.cons k v tl) ++ rbraceC :: rest))
                  = some (.obj (JObj.cons k v tl), rest) := by
              intro w hw
              have hflds : parseFields m (quoteC :: w) = some (JObj.cons k v tl, rest) := by
                rw [← hw]
                exact ihO (JObj.cons k v tl) (by omega) (fun h => JObj.noConfusion h)
                  m rest (by omega)
              rw [hw]
              exact parseValue_objStep m quoteC w _ rest (by decide) (by decide) hflds
            cases tl with
            | nil =>
              exact key (escapeList k.data ++ quoteC :: ':' :: (renderJson v ++ rbraceC :: rest))
                (by rw [renderObj_one, renderStr]; simp [List.append_assoc])
            | cons k2 v2 tl2 =>
              exact key (escapeList k.data ++ quoteC :: ':' ::
                  (renderJson v ++ ',' :: (renderObj (JObj.cons k2 v2 tl2) ++ rbraceC :: rest)))
                (by rw [renderObj_many, renderStr]; simp [List.append_assoc])
    · -- object fields
      intro o hN hne n rest hn
      cases o with
      | nil => exact absurd rfl hne
      | cons k v tl =>
        simp only [fuelO] at hN hn
        cases n with
        | zero => omega
        | succ m =>
          cases tl with
          | nil =>
            have hsh : renderObj (JObj.cons k v .nil) ++ rbraceC :: rest
                = quoteC :: (escapeList k.data ++ quoteC :: ':' :: (renderJson v ++ rbraceC :: rest)) := by
              rw [renderObj_one, renderStr]
              simp [List.append_assoc]
            rw [hsh]
            have hv' : parseValue m (renderJson v ++ rbraceC :: rest)
                = some (v, rbraceC :: rest) :=
              ihV v (by omega) m _ (by omega) (restOk_head rbraceC (by decide) rest)
            rw [parseFields_last m k.data _ v rest hv']
          | cons k2 v2 tl2 =>
            have hsh : renderObj (JObj.cons k v (JObj.cons k2 v2 tl2)) ++ rbraceC :: rest
                = quoteC :: (escapeList k.data ++ quoteC :: ':' ::
                  (renderJson v ++ ',' :: (renderObj (JObj.cons k2 v2 tl2) ++ rbraceC :: rest))) := by
              rw [renderObj_many, renderStr]
              simp [List.append_assoc]
            rw [hsh]
            simp only [fuelO] at hN hn
            have hv' : parseValue m (renderJson v ++ ',' ::
                (renderObj (JObj.cons k2 v2 tl2) ++ rbraceC :: rest))
                = some (v, ',' :: (renderObj (JObj.cons k2 v2 tl2) ++ rbraceC :: rest)) :=
              ihV v (by omega) m _ (by omega) (restOk_head ',' (by decide) _)
            have hrec : parseFields m (renderObj (JObj.cons k2 v2 tl2) ++ rbraceC :: rest)
                = some (JObj.cons k2 v2 tl2, rest) :=
              ihO (JObj.cons k2 v2 tl2) (by simp only [fuelO]; omega)
                (fun h => JObj.noConfusion h) m rest (by simp only [fuelO]; omega)
            rw [parseFields_more m k.data _ v _ _ rest hv' hrec]
    · -- array elements
      intro a hN hne n rest hn
      cases a with
      | nil => exact absurd rfl hne
      | cons x tl =>
        simp only [fuelA] at hN hn
        cases n with
        | zero => omega
        | succ m =>
          cases tl with
          | nil =>
            have hsh : renderArr (JArr.cons x .nil) ++ ']' :: rest
                = renderJson x ++ ']' :: rest := by
              rw [renderArr_one]
            rw [hsh]
            have hv' : parseValue m (renderJson x ++ ']' :: rest)
                = some (x, ']' :: rest) :=
              ihV x (by omega) m _ (by omega) (restOk_head ']' (by decide) rest)
            exact parseElems_last m _ x rest hv'
          | cons y tl2 =>
            have hsh : renderArr (JArr.cons x (JArr.cons y tl2)) ++ ']' :: rest
                = renderJson x ++ ',' :: (renderArr (JArr.cons y tl2) ++ ']' :: rest) := by
              rw [renderArr_many]
              simp [List.append_assoc]
            rw [hsh]
            simp only [fuelA] at hN hn
            have hv' : parseValue m (renderJson x ++ ',' ::
                (renderArr (JArr.cons y tl2) ++ ']' :: rest))
                = some (x, ',' :: (renderArr (JArr.cons y tl2) ++ ']' :: rest)) :=
              ihV x (by omega) m _ (by omega) (restOk_head ',' (by decide) _)
            have hrec : parseElems m (renderArr (JArr.cons y tl2) ++ ']' :: rest)
                = some (JArr.cons y tl2, rest) :=
              ihA (JArr.cons y tl2) (by simp only [fuelA]; omega)
                (fun h => JArr.noConfusion h) m rest (by simp only [fuelA]; omega)
            exact parseElems_more m _ x _ _ rest hv' hrec

theorem renderInt_len_pos (i : Int) : 1 ≤ (renderInt i).length := by
  rw [renderInt]
  by_cases hi : i < 0
  · rw [if_pos hi]
    simp
  · rw [if_neg hi]
    have := renderNat_ne_nil i.toNat
    cases hcase : renderNat i.toNat with
    | nil => exact absurd hcase this
    | cons c t => simp [hcase]

theorem fuelLen : ∀ N : Nat,
    (∀ v : Json, fuelV v ≤ N → fuelV v ≤ (renderJson v).length) ∧
    (∀ a : JArr, fuelA a ≤ N → fuelA a ≤ (renderArr a).length + 1) ∧
    (∀ o : JObj, fuelO o ≤ N → fuelO o ≤ (renderObj o).length + 1) := by
  intro N
  induction N with
  | zero =>
    refine ⟨?_, ?_, ?_⟩
    · intro v hv
      have := fuelV_pos v
      omega
    · intro a ha
      omega
    · intro o ho
      omega
  | succ N ih =>
    obtain ⟨ih1, ih2, ih3⟩ := ih
    refine ⟨?_, ?_, ?_⟩
    · intro v hv
      cases v with
      | null => simp [fuelV, renderJson]
      | bool b => cases b <;> simp [fuelV, renderJson]
      | num i =>
        have := renderInt_len_pos i
        simp only [fuelV, renderJson]
        omega
      | str s =>
        simp [fuelV, renderJson, renderStr]
      | arr a =>
        simp only [fuelV] at hv ⊢
        have := ih2 a (by omega)
        simp only [renderJson, List.length_cons, List.length_append]
        simp
        omega
      | obj o =>
        simp only [fuelV] at hv ⊢
        have := ih3 o (by omega)
        simp only [renderJson, List.length_cons, List.length_append]
        simp
        omega
    · intro a ha
      cases a with
      | nil => simp [fuelA]
      | cons x tl =>
        simp only [fuelA] at ha ⊢
        have h1 := ih1 x (by omega)
        cases tl with
        | nil =>
          simp only [fuelA, renderArr_one]
          omega
        | cons y tl2 =>
          have hsub : fuelA (JArr.cons y tl2) ≤ N := by
            simp only [fuelA] at ha ⊢
            omega
          have h2 := ih2 (JArr.cons y tl2) hsub
          simp only [fuelA] at h2 ⊢
          simp only [renderArr_many, List.length_append, List.length_cons]
          omega
    · intro o ho
      cases o with
      | nil => simp [fuelO]
      | cons k v tl =>
        simp only [fuelO] at ho ⊢
        have h1 := ih1 v (by omega)
        cases tl with
        | nil =>
          simp only [fuelO, renderObj_one, List.length_append, List.length_cons]
          omega
        | cons k2 v2 tl2 =>
          have hsub : fuelO (JObj.cons k2 v2 tl2) ≤ N := by
            simp only [fuelO] at ho ⊢
            omega
          have h2 := ih3 (JObj.cons k2 v2 tl2) hsub
          simp only [fuelO] at h2 ⊢
          simp only [renderObj_many, List.length_append, List.length_cons]
          omega

/-- The round trip at the fuel the decode chain uses: parsing the rendering
of any value consumes it exactly. -/
theorem parseValue_render (v : Json) :
    parseValue ((renderJson v).length + 1) (renderJson v) = some (v, []) := by
  have h1 := (rtAll (fuelV v)).1 v le_rfl ((renderJson v).length + 1) []
    (by have := (fuelLen (fuelV v)).1 v le_rfl; omega) restOk_nil
  simpa using h1

/-! ## Decode chain on rendered values -/

theorem unmarshalTop_render (v : Json) : unmarshalTop (renderJson v) = some v := by
  rw [unmarshalTop, parseValue_render]
  rfl

theorem decodeFuncError_render_obj (fs : JObj) (h : reservedFree fs = true) :
    decodeFuncError (renderJson (.obj fs)) = none := by
  rw [decodeFuncError, parseValue_render]
  dsimp only []
  cases fs with
  | nil => rfl
  | cons k v tl =>
    simp only [reservedFree, Bool.and_eq_true, Bool.not_eq_true'] at h
    rw [funcErrFold.eq_def]
    dsimp only []
    rw [if_neg (by simp [h.1.1]), if_neg (by simp [h.1.2])]

theorem decodeFuncError_render_arr (xs : JArr) :
    decodeFuncError (renderJson (.arr xs)) = none := by
  rw [decodeFuncError, parseValue_render]

theorem unmarshalMap_render_obj (fs : JObj) :
    unmarshalMap (renderJson (.obj fs)) = some fs := by
  rw [unmarshalMap, unmarshalTop_render]

theorem unmarshalMap_render_arr (xs : JArr) :
    unmarshalMap (renderJson (.arr xs)) = none := by
  rw [unmarshalMap, unmarshalTop_render]

theorem unmarshalArr_render (xs : JArr) :
    unmarshalArr (renderJson (.arr xs)) = some xs := by
  rw [unmarshalArr, unmarshalTop_render]

theorem parseResponsePayload_render_obj (fs : JObj) (h : reservedFree fs = true) :
    parseResponsePayload (renderJson (.obj fs)) = .map fs := by
  have hsh : renderJson (.obj fs) = lbraceC :: (renderObj fs ++ [rbraceC]) := by
    rw [renderJson, List.cons_append]
  rw [hsh, parseResponsePayload, ← hsh, decodeFuncError_render_obj fs h,
    unmarshalMap_render_obj]

theorem parseResponsePayload_render_arr (xs : JArr) :
    parseResponsePayload (renderJson (.arr xs)) = .arr xs := by
  have hsh : renderJson (.arr xs) = '[' :: (renderArr xs ++ [']']) := by
    rw [renderJson, List.cons_append]
  rw [hsh, parseResponsePayload, ← hsh, decodeFuncError_render_arr,
    unmarshalMap_render_arr, unmarshalArr_render]

/-! ## Claim theorems -/

/-- C4: the payload `{"errorMessage":"boom","errorType":"Error"}` decodes to a
logical-error record, never a generic mapping, while the same object with an
extra field decodes to a generic key-value mapping, because rule 1 of the
decode chain disallows unknown fields and requires both recognized fields
non-absent. -/
theorem errorRecord_precedence :
    parseResponsePayload ("\x7b\"errorMessage\":\"boom\",\"errorType\":\"Error\"\x7d").toList
      = .funcError "boom" "Error" ∧
    parseResponsePayload
        ("\x7b\"errorMessage\":\"boom\",\"errorType\":\"Error\",\"extra\":1\x7d").toList
      = .map (.cons "errorMessage" (.str "boom") (.cons "errorType" (.str "Error")
          (.cons "extra" (.num 1) .nil))) :=
  ⟨rfl, rfl⟩

/-- C9: decoding the byte payload `"hi"` — quote, h, i, quote — yields the
scalar string `hi`, and decoding the bare text `hi` also yields `hi`: when
the earlier rules fail, one leading and one trailing double quote are
stripped and the remaining text is returned.  The first payload is a valid
JSON value (a string literal) and the second is not, as the last two
conjuncts record. -/
theorem quotedScalar_unwrapping :
    parseResponsePayload ("\"hi\"").toList = .str "hi" ∧
    parseResponsePayload ("hi").toList = .str "hi" ∧
    unmarshalTop ("\"hi\"").toList = some (.str "hi") ∧
    unmarshalTop ("hi").toList = none :=
  ⟨rfl, rfl, rfl, rfl⟩

/-- C7: for every local-process run whose target fails to even launch
(`Run` reports a `*fs.PathError`; whether or not a `ProcessState` exists)
under a test case declaring no expectations, `Execute` yields exactly one
launch error, formatted "path: msg", and zero expectation-check errors:
the unconditional validation pass appends nothing when no expectation is
declared, observationally the same as being skipped. -/
theorem launchFailure_single_error (cmd : CmdBehavior) (p m : String)
    (h : cmd.runError = some (.pathError p m)) :
    (execExecute cmd { exitCode := none, stdout := none, stderr := none }).errors
      = [p ++ ": " ++ m] := by
  simp [execExecute, h, execValidate]

/-- The missing-binary scenario of the spec: target `/bin/does-not-exist`
never launches, `Run` reports the path error, no expectations are declared;
the result carries exactly the one launch error. -/
theorem launchFailure_single_error_witness :
    (execExecute
      { runError := some (.pathError "/bin/does-not-exist" "no such file or directory"),
        processState := none, stdout := "", stderr := "" }
      { exitCode := none, stdout := none, stderr := none }).errors
      = ["/bin/does-not-exist: no such file or directory"] := by
  have h := launchFailure_single_error
    { runError := some (.pathError "/bin/does-not-exist" "no such file or directory"),
      processState := none, stdout := "", stderr := "" }
    "/bin/does-not-exist" "no such file or directory" rfl
  exact h

/-- C2, counterexample: a declared function-error message together with an
outcome carrying no function-error indicator at all produces zero validation
errors — the declared-but-absent logical error is silently accepted as a
pass, contradicting the claim that it must be reported as a mismatch. -/
theorem declaredError_absent_silently_accepted :
    validateExpectations (fun _ _ _ _ => ([] : List String))
      { functionError := "boom", payload := (none : Option Unit), status := 0,
        version := "", wantExactJSONPayload := false }
      { functionError := "", invocationError := none, payload := [], status := 0,
        version := "" }
      = some [] :=
  rfl

/-- C3, counterexample: a producer that returns a nil byte slice is invoked
again on every encoding call — after two calls to `requestPayloadBytes` the
invocation count is 2, contradicting "at most once ... including producers
that return nil". -/
theorem nilProducer_reinvoked :
    ((requestPayloadBytes (requestPayloadBytes
        { payload := .producer (fun _ => none), payloadBytes := none,
          producerCalls := 0 }).2).2).producerCalls = 2 :=
  rfl

/-- C1: when the outcome carries a hard invocation failure, the validator
prepends exactly one error carrying the failure's message if and only if no
status was declared (the zero sentinel) or the declared status differs from
the observed partial status; with a matching declared status no
transport-failure error is emitted.  In either case the validator does not
early-return: the remaining checks produce exactly `validateTail`, which
does not depend on the invocation error. -/
theorem invocationFailure_check {α : Type}
    (ev : String → α → ParsedPayload → Bool → List String)
    (exp : ResponseExpectations α) (r : LambdaResult) (msg : String)
    (h : r.invocationError = some msg) :
    validateExpectations ev exp r
      = (validateTail ev exp r).map
          (fun tail => (if exp.status = 0 ∨ r.status ≠ exp.status then [msg] else []) ++ tail) := by
  cases hf : funcErrorCheck exp r with
  | none =>
    simp only [validateExpectations, validateTail, hf]
    rfl
  | some e4 =>
    simp only [validateExpectations, validateTail, hf, Option.map_some]
    rw [invocationCheck, h]
    dsimp only []
    by_cases hc : exp.status ≠ 0 ∧ r.status = exp.status
    · rw [if_pos hc, if_neg (by
        rintro (h0 | hne2)
        · exact hc.1 h0
        · exact hne2 hc.2)]
      simp
    · rw [if_neg hc, if_pos (by
        rcases not_and_or.mp hc with h1 | h2
        · exact Or.inl (not_not.mp h1)
        · exact Or.inr h2)]
      simp [List.append_assoc]

/-- C1, witness. -/
theorem invocationFailure_check_witness :
    validateExpectations (fun _ _ _ _ => ([] : List String))
      { functionError := "", payload := (none : Option Unit), status := 0,
        version := "", wantExactJSONPayload := false }
      { functionError := "", invocationError := some "connection refused",
        payload := [], status := 0, version := "" }
      = some ["connection refused"] := by
  rw [invocationFailure_check (fun _ _ _ _ => ([] : List String))
    { functionError := "", payload := (none : Option Unit), status := 0,
      version := "", wantExactJSONPayload := false }
    { functionError := "", invocationError := some "connection refused",
      payload := [], status := 0, version := "" }
    "connection refused" rfl]
  rfl

/-- C6: when no function error was declared but the outcome carries a
function-error indicator, the logical-error check contributes exactly one
mismatch, the "expected no function error" message naming the observed
indicator, at its fixed position in the validator's output. -/
theorem undeclared_funcError_reported {α : Type}
    (ev : String → α → ParsedPayload → Bool → List String)
    (exp : ResponseExpectations α) (r : LambdaResult)
    (hd : exp.functionError = "") (hfe : r.functionError ≠ "") :
    validateExpectations ev exp r
      = some (invocationCheck exp r ++ versionCheck exp r ++ statusCheck exp r ++
          [noFuncErrorExpectedMsg r.functionError] ++ payloadCheck ev exp r) := by
  have hcheck : funcErrorCheck exp r = some [noFuncErrorExpectedMsg r.functionError] := by
    rw [funcErrorCheck, if_neg (fun hc => hc.1 hd), if_pos hfe]
  simp only [validateExpectations, hcheck]

/-- C6, witness. -/
theorem undeclared_funcError_reported_witness :
    validateExpectations (fun _ _ _ _ => ([] : List String))
      { functionError := "", payload := (none : Option Unit), status := 0,
        version := "", wantExactJSONPayload := false }
      { functionError := "Unhandled", invocationError := none, payload := [],
        status := 0, version := "" }
      = some ["expected no function error, got \"Unhandled\""] := by
  rw [undeclared_funcError_reported (fun _ _ _ _ => ([] : List String))
    { functionError := "", payload := (none : Option Unit), status := 0,
      version := "", wantExactJSONPayload := false }
    { functionError := "Unhandled", invocationError := none, payload := [],
      status := 0, version := "" }
    rfl (by decide)]
  rfl

/-- C2, amended: when a function-error message is declared, the
logical-error check reports a message mismatch exactly when the observed
indicator is "Unhandled" and the decoded record's message differs; an
observed indicator that is non-empty but different from "Unhandled" is
reported with the "expected no function error" message; and an outcome
carrying no indicator at all is silently accepted (the check contributes no
error), rather than being reported as a mismatch. -/
theorem funcErrorCheck_cases {α : Type}
    (exp : ResponseExpectations α) (r : LambdaResult)
    (hd : exp.functionError ≠ "") :
    (r.functionError = "" → funcErrorCheck exp r = some []) ∧
    (r.functionError ≠ "" → r.functionError ≠ "Unhandled" →
      funcErrorCheck exp r = some [noFuncErrorExpectedMsg r.functionError]) ∧
    (∀ m t, r.functionError = "Unhandled" →
      parseResponsePayload r.payload = .funcError m t →
      funcErrorCheck exp r
        = some (if m ≠ exp.functionError
            then [funcErrorMismatchMsg exp.functionError m] else [])) := by
  refine ⟨?_, ?_, ?_⟩
  · intro h0
    rw [funcErrorCheck, if_neg (fun hc => by rw [h0] at hc; exact absurd hc.2 (by decide)),
      if_neg (fun hne => hne h0)]
  · intro h1 h2
    rw [funcErrorCheck, if_neg (fun hc => h2 hc.2), if_pos h1]
  · intro m t hu hp
    rw [funcErrorCheck, if_pos ⟨hd, hu⟩, hp]

/-- C2 amended, witness. -/
theorem funcErrorCheck_cases_witness :
    funcErrorCheck (α := Unit)
      { functionError := "boom", payload := none, status := 0, version := "",
        wantExactJSONPayload := false }
      { functionError := "Unhandled", invocationError := none,
        payload := ("\x7b\"errorMessage\":\"oops\",\"errorType\":\"Error\"\x7d").toList,
        status := 0, version := "" }
      = some [funcErrorMismatchMsg "boom" "oops"] := by
  rw [(funcErrorCheck_cases (α := Unit)
    { functionError := "boom", payload := none, status := 0, version := "",
      wantExactJSONPayload := false }
    { functionError := "Unhandled", invocationError := none,
      payload := ("\x7b\"errorMessage\":\"oops\",\"errorType\":\"Error\"\x7d").toList,
      status := 0, version := "" }
    (by decide)).2.2 "oops" "Error" rfl rfl]
  rfl

/-- The logical-error check panics exactly when a function error is
declared, the observed indicator is "Unhandled", and the response payload
does not decode to a logical-error record. -/
theorem funcErrorCheck_none_iff {α : Type}
    (exp : ResponseExpectations α) (r : LambdaResult) :
    funcErrorCheck exp r = none ↔
      (exp.functionError ≠ "" ∧ r.functionError = "Unhandled" ∧
        ∀ m t, parseResponsePayload r.payload ≠ .funcError m t) := by
  by_cases hc : exp.functionError ≠ "" ∧ r.functionError = "Unhandled"
  · rw [funcErrorCheck, if_pos hc]
    cases hp : parseResponsePayload r.payload with
    | funcError m t =>
      constructor
      · intro h
        exact Option.noConfusion h
      · rintro ⟨-, -, hall⟩
        exact absurd rfl (hall m t)
    | nilP =>
      constructor
      · intro _
        exact ⟨hc.1, hc.2, fun m t hcontra => by cases hcontra⟩
      · intro _
        rfl
    | map fs =>
      constructor
      · intro _
        exact ⟨hc.1, hc.2, fun m t hcontra => by cases hcontra⟩
      · intro _
        rfl
    | arr xs =>
      constructor
      · intro _
        exact ⟨hc.1, hc.2, fun m t hcontra => by cases hcontra⟩
      · intro _
        rfl
    | str s =>
      constructor
      · intro _
        exact ⟨hc.1, hc.2, fun m t hcontra => by cases hcontra⟩
      · intro _
        rfl
  · rw [funcErrorCheck, if_neg hc]
    constructor
    · intro h
      exact Option.noConfusion h
    · rintro ⟨h1, h2, -⟩
      exact absurd ⟨h1, h2⟩ hc

/-- C10: the validator is total except on one undocumented precondition: it
aborts (the Go code panics on the interface cast and message dereference)
precisely when a function-error message was declared, the observed
indicator is exactly "Unhandled", and the response payload does not decode
to a logical-error record with both fields present; everywhere else it
returns an error list. -/
theorem validate_total_iff {α : Type}
    (ev : String → α → ParsedPayload → Bool → List String)
    (exp : ResponseExpectations α) (r : LambdaResult) :
    validateExpectations ev exp r = none ↔
      (exp.functionError ≠ "" ∧ r.functionError = "Unhandled" ∧
        ∀ m t, parseResponsePayload r.payload ≠ .funcError m t) := by
  rw [← funcErrorCheck_none_iff exp r]
  cases hf : funcErrorCheck exp r with
  | none => simp [validateExpectations, hf]
  | some e4 => simp [validateExpectations, hf]

/-- C3, amended: for every fresh test case, encoding twice yields identical
results and identical states — hence any further encoding call changes
nothing — and the producer is invoked at most once, provided that a
producer's first result is a non-nil byte slice (the empty non-nil slice
included).  A producer returning nil falls outside: the nil result fails the
cache's non-nil test and the producer is re-invoked on each call (see the
counterexample). -/
theorem requestPayloadBytes_cached (s0 : PayloadState)
    (hfresh : s0.payloadBytes = none) (hcalls : s0.producerCalls = 0)
    (hprod : match s0.payload with
      | .producer f => (f 0).isSome
      | .producerE f => (f 0).2 = none ∧ (f 0).1.isSome
      | _ => True) :
    (requestPayloadBytes (requestPayloadBytes s0).2).1 = (requestPayloadBytes s0).1 ∧
    (requestPayloadBytes (requestPayloadBytes s0).2).2 = (requestPayloadBytes s0).2 ∧
    (requestPayloadBytes s0).2.producerCalls ≤ 1 := by
  obtain ⟨payload, cache, calls⟩ := s0
  simp only [] at hfresh hcalls hprod
  subst hfresh hcalls
  cases payload with
  | nilPayload => exact ⟨rfl, rfl, Nat.zero_le 1⟩
  | bytes b =>
    cases b with
    | none => exact ⟨rfl, rfl, Nat.zero_le 1⟩
    | some l => exact ⟨rfl, rfl, Nat.zero_le 1⟩
  | strPayload cs => exact ⟨rfl, rfl, Nat.zero_le 1⟩
  | producer f =>
    dsimp only [] at hprod
    cases hf : f 0 with
    | none =>
      rw [hf] at hprod
      simp at hprod
    | some bs =>
      refine ⟨?_, ?_, ?_⟩ <;> simp [requestPayloadBytes, hf]
  | producerE f =>
    dsimp only [] at hprod
    obtain ⟨he, hb⟩ := hprod
    cases hf : f 0 with
    | mk b e =>
      rw [hf] at he hb
      simp only [] at he hb
      subst he
      cases b with
      | none => simp at hb
      | some bs =>
        refine ⟨?_, ?_, ?_⟩ <;> simp [requestPayloadBytes, hf]
  | value v => exact ⟨rfl, rfl, Nat.zero_le 1⟩

/-- C3 amended, witness. -/
theorem requestPayloadBytes_cached_witness :
    (requestPayloadBytes (requestPayloadBytes
        { payload := ReqPayload.producer (fun _ => some ['a']), payloadBytes := none,
          producerCalls := 0 }).2).2
      = (requestPayloadBytes
        { payload := ReqPayload.producer (fun _ => some ['a']), payloadBytes := none,
          producerCalls := 0 }).2 ∧
    (requestPayloadBytes
        { payload := ReqPayload.producer (fun _ => some ['a']), payloadBytes := none,
          producerCalls := 0 }).2.producerCalls ≤ 1 :=
  ⟨(requestPayloadBytes_cached
      { payload := ReqPayload.producer (fun _ => some ['a']), payloadBytes := none,
        producerCalls := 0 } rfl rfl rfl).2.1,
   (requestPayloadBytes_cached
      { payload := ReqPayload.producer (fun _ => some ['a']), payloadBytes := none,
        producerCalls := 0 } rfl rfl rfl).2.2⟩

theorem get?_after (A B : List String) (x : String) :
    (A ++ x :: B).get? A.length = some x := by
  induction A with
  | nil => rfl
  | cons a A ih => simpa using ih

/-- C5: when both a version mismatch and a payload mismatch occur (and the
logical-error check does not panic), the validator's output is exactly the
five checks' contributions appended in the fixed order invocation-failure,
version, status, logical-error, payload — and, positionally, the
version-mismatch error occurs at an earlier index than the first
payload-comparison error. -/
theorem versionError_before_payloadError {α : Type}
    (ev : String → α → ParsedPayload → Bool → List String)
    (exp : ResponseExpectations α) (r : LambdaResult)
    (hver : exp.version ≠ "" ∧ r.version ≠ exp.version)
    (e4 : List String) (hf : funcErrorCheck exp r = some e4)
    (hp : payloadCheck ev exp r ≠ []) :
    ∃ l, validateExpectations ev exp r = some l ∧
      l = invocationCheck exp r ++ versionCheck exp r ++ statusCheck exp r ++ e4 ++
        payloadCheck ev exp r ∧
      ∃ i j, i < j ∧ l.get? i = some (versionMismatchMsg exp.version r.version) ∧
        l.get? j = (payloadCheck ev exp r).head? := by
  have hvc : versionCheck exp r = [versionMismatchMsg exp.version r.version] := by
    rw [versionCheck, if_pos hver]
  obtain ⟨p, tail, hpp⟩ := List.exists_cons_of_ne_nil hp
  refine ⟨_, by simp only [validateExpectations, hf], rfl,
    (invocationCheck exp r).length,
    (invocationCheck exp r ++ versionCheck exp r ++ statusCheck exp r ++ e4).length,
    ?_, ?_, ?_⟩
  · simp [hvc, List.length_append]
  · rw [hvc]
    rw [show invocationCheck exp r ++ [versionMismatchMsg exp.version r.version] ++
        statusCheck exp r ++ e4 ++ payloadCheck ev exp r
      = invocationCheck exp r ++ versionMismatchMsg exp.version r.version ::
        (statusCheck exp r ++ e4 ++ payloadCheck ev exp r) from by
          simp [List.append_assoc]]
    exact get?_after _ _ _
  · rw [hpp]
    rw [get?_after (invocationCheck exp r ++ versionCheck exp r ++ statusCheck exp r ++ e4)
      tail p]
    rfl

/-- C5, witness. -/
theorem versionError_before_payloadError_witness :
    ∃ l, validateExpectations (fun _ _ _ _ => ["body mismatch"])
        { functionError := "", payload := some (), status := 0, version := "1",
          wantExactJSONPayload := false }
        { functionError := "", invocationError := none, payload := [], status := 0,
          version := "2" }
      = some l ∧
      l = invocationCheck
            { functionError := "", payload := some (), status := 0, version := "1",
              wantExactJSONPayload := false }
            { functionError := "", invocationError := none, payload := [], status := 0,
              version := "2" } ++
          versionCheck
            { functionError := "", payload := some (), status := 0, version := "1",
              wantExactJSONPayload := false }
            { functionError := "", invocationError := none, payload := [], status := 0,
              version := "2" } ++
          statusCheck
            { functionError := "", payload := some (), status := 0, version := "1",
              wantExactJSONPayload := false }
            { functionError := "", invocationError := none, payload := [], status := 0,
              version := "2" } ++ [] ++
          payloadCheck (fun _ _ _ _ => ["body mismatch"])
            { functionError := "", payload := some (), status := 0, version := "1",
              wantExactJSONPayload := false }
            { functionError := "", invocationError := none, payload := [], status := 0,
              version := "2" } ∧
      ∃ i j, i < j ∧ l.get? i = some (versionMismatchMsg "1" "2") ∧
        l.get? j = (payloadCheck (fun _ _ _ _ => ["body mismatch"])
            { functionError := "", payload := some (), status := 0, version := "1",
              wantExactJSONPayload := false }
            { functionError := "", invocationError := none, payload := [], status := 0,
              version := "2" }).head? :=
  versionError_before_payloadError (fun _ _ _ _ => ["body mismatch"])
    { functionError := "", payload := some (), status := 0, version := "1",
      wantExactJSONPayload := false }
    { functionError := "", invocationError := none, payload := [], status := 0,
      version := "2" }
    (by decide) [] rfl (by decide)

/-- C8: for every well-formed structured mapping none of whose field names
collides with the reserved `errorMessage`/`errorType` under
`encoding/json`'s case-insensitive field matching, and every structured
list, encoding it (the `json.Marshal` arm of
`requestPayloadBytes`) and decoding the bytes through the fallback chain
yields the same structure back — a mapping decodes to exactly its field
list and a list to exactly its elements, never a logical-error record or a
scalar string. -/
theorem decode_encode_roundTrip (v : Json) (hwf : wfJ v = true)
    (hshape : match v with
      | .obj fs => reservedFree fs = true
      | .arr _ => True
      | _ => False) :
    (requestPayloadBytes
        { payload := .value v, payloadBytes := none, producerCalls := 0 }).1
      = .ok (some (renderJson v)) ∧
    parseResponsePayload (renderJson v) = (match v with
      | .obj fs => .map fs
      | .arr xs => .arr xs
      | _ => .nilP) := by
  refine ⟨rfl, ?_⟩
  cases v with
  | obj fs => exact parseResponsePayload_render_obj fs hshape
  | arr xs => exact parseResponsePayload_render_arr xs
  | null => simp at hshape
  | bool b => simp at hshape
  | num i => simp at hshape
  | str s => simp at hshape

/-- C8, witness. -/
theorem decode_encode_roundTrip_witness :
    parseResponsePayload (renderJson (.obj (.cons "a" (.num 1) .nil)))
      = .map (.cons "a" (.num 1) .nil) :=
  (decode_encode_roundTrip (.obj (.cons "a" (.num 1) .nil)) (by decide) (by decide)).2

end MEx
